import Mathlib

set_option linter.all false

/-
Verification of the downtime-benchmarker core (src/downtime-benchmarker/src/main.rs):
the per-target failure-window tracker, the shutdown window-closing pass, the
report aggregator, the probers' pure fragments (TCP address construction, HTTP
status classification), the batch poll, and the initial health-check gate.
Timestamps are modelled as integer seconds.
-/

namespace Downtime

/-- Mirrors `enum Check` (main.rs:59-62): a tagged union of check kinds. -/
inductive Check where
  | http (url : String)
  | tcp (host : String) (port : Nat)
  deriving DecidableEq

/-- Mirrors `struct Target` (main.rs:53-56). -/
structure Target where
  name : String
  check : Check
  deriving DecidableEq

/-- Mirrors `struct FailureWindow` (main.rs:195-198); `DateTime<Local>` becomes
integer seconds. -/
structure FailureWindow where
  start : Int
  «end» : Int
  deriving DecidableEq

/-- Mirrors `FailureWindow::duration_secs` (main.rs:201-203):
`(end - start).num_seconds().max(1)`. -/
def duration_secs (w : FailureWindow) : Int :=
  max (w.«end» - w.start) 1

/-- Mirrors `struct TargetState` (main.rs:206-210). -/
structure TargetState where
  target : Target
  is_failing : Bool
  failures : List FailureWindow
  deriving DecidableEq

/-- Mirrors `if let Some(window) = state.failures.last_mut() { window.end = now }`
(main.rs:483-485, 490-492, 514-516): update the last window's `end`, if any. -/
def setLastEnd : List FailureWindow → Int → List FailureWindow
  | [], _ => []
  | [w], now => [{ w with «end» := now }]
  | w :: w₂ :: ws, now => w :: setLastEnd (w₂ :: ws) now

/-- Mirrors the per-target per-tick state update in the monitoring loop
(main.rs:479-501): the four cases of the two-state FSM on (result, is_failing). -/
def updateState (st : TargetState) (ok : Bool) (now : Int) : TargetState :=
  match ok, st.is_failing with
  | true, true =>
      { st with failures := setLastEnd st.failures now, is_failing := false }
  | true, false => st
  | false, true =>
      { st with failures := setLastEnd st.failures now }
  | false, false =>
      { st with failures := st.failures ++ [{ start := now, «end» := now }],
                is_failing := true }

/-- Feed one target's tracker a sequence of ticks, each a (result, timestamp)
pair, in order (main.rs:464-508 restricted to one target). -/
def runTicks (st : TargetState) : List (Bool × Int) → TargetState
  | [] => st
  | (ok, now) :: rest => runTicks (updateState st ok now) rest

/-- The initial per-target state (main.rs:454-461): Healthy, no windows. -/
def initState (t : Target) : TargetState :=
  { target := t, is_failing := false, failures := [] }

/-- The state after a tick is Failing exactly when the tick's result was false. -/
theorem is_failing_updateState (st : TargetState) (ok : Bool) (now : Int) :
    (updateState st ok now).is_failing = !ok := by
  cases ok <;> cases h : st.is_failing <;> simp [updateState, h]

theorem is_failing_updateState_target (st : TargetState) (ok : Bool) (now : Int) :
    (updateState st ok now).target = st.target := by
  cases ok <;> cases h : st.is_failing <;> simp [updateState, h]

/-- C1: the per-target tracker update follows the specified two-state FSM: in
Healthy a true result is a no-op; in Healthy a false result appends a window
with start = end = now and moves to Failing; in Failing a false result sets
the last window's end to now and stays Failing; in Failing a true result sets
the last window's end to now and moves to Healthy.  For the boolean sequence
[true, true, false, true] at timestamps t0..t3 the result is exactly one
window with start = t2 and end = t3. -/
theorem tracker_fsm_matches_spec (tgt : Target) (fs : List FailureWindow)
    (now t0 t1 t2 t3 : Int) :
    updateState ⟨tgt, false, fs⟩ true now = ⟨tgt, false, fs⟩ ∧
    updateState ⟨tgt, false, fs⟩ false now =
      ⟨tgt, true, fs ++ [{ start := now, «end» := now }]⟩ ∧
    updateState ⟨tgt, true, fs⟩ false now = ⟨tgt, true, setLastEnd fs now⟩ ∧
    updateState ⟨tgt, true, fs⟩ true now = ⟨tgt, false, setLastEnd fs now⟩ ∧
    runTicks (initState tgt) [(true, t0), (true, t1), (false, t2), (true, t3)] =
      ⟨tgt, false, [{ start := t2, «end» := t3 }]⟩ := by
  refine ⟨rfl, rfl, rfl, rfl, ?_⟩
  simp [runTicks, initState, updateState, setLastEnd]

/-- Tick timestamps strictly increase and all lie strictly after `t`. -/
def ticksAfter (t : Int) : List (Bool × Int) → Bool
  | [] => true
  | (_, now) :: rest => decide (t < now) && ticksAfter now rest

/-- The timestamp of the last tick (or `t` when there is none). -/
def lastT (t : Int) : List (Bool × Int) → Int
  | [] => t
  | (_, now) :: rest => lastT now rest

/-- Number of Healthy→Failing transitions of the FSM along a result sequence,
starting from the given `is_failing` flag. -/
def countHF : Bool → List Bool → Nat
  | _, [] => 0
  | failing, ok :: rest => (if !failing && !ok then 1 else 0) + countHF (!ok) rest

theorem setLastEnd_concat (fs : List FailureWindow) (b : FailureWindow) (now : Int) :
    setLastEnd (fs ++ [b]) now = fs ++ [{ b with «end» := now }] := by
  induction fs with
  | nil => rfl
  | cons a t ih =>
    cases t with
    | nil => rfl
    | cons c t' => simpa [setLastEnd] using ih

theorem length_setLastEnd (fs : List FailureWindow) (now : Int) :
    (setLastEnd fs now).length = fs.length := by
  rcases List.eq_nil_or_concat fs with h | ⟨l, b, h⟩
  · simp [h, setLastEnd]
  · simp [h, setLastEnd_concat]

theorem getLast?_setLastEnd (fs : List FailureWindow) (now : Int) :
    (setLastEnd fs now).getLast? = fs.getLast?.map (fun w => { w with «end» := now }) := by
  rcases List.eq_nil_or_concat fs with h | ⟨l, b, h⟩
  · simp [h, setLastEnd]
  · simp [h, setLastEnd_concat]

theorem take_pred_setLastEnd (fs : List FailureWindow) (now : Int) :
    (setLastEnd fs now).take (fs.length - 1) = fs.take (fs.length - 1) := by
  rcases List.eq_nil_or_concat fs with h | ⟨l, b, h⟩
  · simp [h, setLastEnd]
  · simp [h, setLastEnd_concat, List.take_append_of_le_length]

/-- Tracker invariant at time bound `t`: windows pairwise separated
(`end` before the next `start`), each window non-degenerate with `end` at most
`t`, and a Failing status guarantees an open (last) window exists. -/
def Inv (t : Int) (st : TargetState) : Prop :=
  List.Pairwise (fun a b => a.«end» < b.start) st.failures ∧
  (∀ w ∈ st.failures, w.start ≤ w.«end» ∧ w.«end» ≤ t) ∧
  (st.is_failing = true → st.failures ≠ [])

theorem inv_init (t : Int) (tgt : Target) : Inv t (initState tgt) := by
  refine ⟨by simp [initState], by simp [initState], by simp [initState]⟩

theorem inv_step (st : TargetState) (ok : Bool) (t now : Int)
    (hlt : t < now) (h : Inv t st) : Inv now (updateState st ok now) := by
  obtain ⟨hp, hb, hne⟩ := h
  cases ok <;> rcases hfail : st.is_failing with _ | _
  · -- false, is_failing = false: open a new window
    refine ⟨?_, ?_, ?_⟩
    · simp only [updateState, hfail]
      rw [List.pairwise_append]
      refine ⟨hp, by simp, ?_⟩
      intro a ha b hb'
      simp at hb'
      subst hb'
      exact lt_of_le_of_lt (hb a ha).2 hlt
    · simp only [updateState, hfail]
      intro w hw
      rcases List.mem_append.mp hw with hw | hw
      · exact ⟨(hb w hw).1, le_of_lt (lt_of_le_of_lt (hb w hw).2 hlt)⟩
      · simp at hw
        subst hw
        simp
    · simp [updateState, hfail]
  · -- false, is_failing = true: extend last window
    rcases List.eq_nil_or_concat st.failures with hnil | ⟨l, b, hdec⟩
    · exact absurd hnil (hne hfail)
    rw [List.concat_eq_append] at hdec
    refine ⟨?_, ?_, ?_⟩
    · simp only [updateState, hfail, hdec, setLastEnd_concat]
      rw [hdec, List.pairwise_append] at hp
      rw [List.pairwise_append]
      exact ⟨hp.1, by simp, fun a ha b hb' => by
        simp at hb'
        subst hb'
        exact hp.2.2 a ha b (by simp)⟩
    · simp only [updateState, hfail, hdec, setLastEnd_concat]
      intro w hw
      rcases List.mem_append.mp hw with hw | hw
      · have := hb w (by simp [hdec, List.mem_append.mpr (Or.inl hw)])
        exact ⟨this.1, le_of_lt (lt_of_le_of_lt this.2 hlt)⟩
      · simp at hw
        subst hw
        have := hb b (by simp [hdec])
        exact ⟨le_of_lt (lt_of_le_of_lt (le_trans this.1 this.2) hlt), le_refl _⟩
    · simp [updateState, hfail, hdec, setLastEnd_concat]
  · -- true, is_failing = false: no-op
    refine ⟨by simpa [updateState, hfail] using hp, ?_, by simp [updateState, hfail]⟩
    simp only [updateState, hfail]
    exact fun w hw => ⟨(hb w hw).1, le_of_lt (lt_of_le_of_lt (hb w hw).2 hlt)⟩
  · -- true, is_failing = true: close last window
    rcases List.eq_nil_or_concat st.failures with hnil | ⟨l, b, hdec⟩
    · exact absurd hnil (hne hfail)
    rw [List.concat_eq_append] at hdec
    refine ⟨?_, ?_, ?_⟩
    · simp only [updateState, hfail, hdec, setLastEnd_concat]
      rw [hdec, List.pairwise_append] at hp
      rw [List.pairwise_append]
      exact ⟨hp.1, by simp, fun a ha b hb' => by
        simp at hb'
        subst hb'
        exact hp.2.2 a ha b (by simp)⟩
    · simp only [updateState, hfail, hdec, setLastEnd_concat]
      intro w hw
      rcases List.mem_append.mp hw with hw | hw
      · have := hb w (by simp [hdec, List.mem_append.mpr (Or.inl hw)])
        exact ⟨this.1, le_of_lt (lt_of_le_of_lt this.2 hlt)⟩
      · simp at hw
        subst hw
        have := hb b (by simp [hdec])
        exact ⟨le_of_lt (lt_of_le_of_lt (le_trans this.1 this.2) hlt), le_refl _⟩
    · simp [updateState, hfail]
  done

theorem inv_run (ticks : List (Bool × Int)) :
    ∀ (st : TargetState) (t : Int), Inv t st → ticksAfter t ticks = true →
      Inv (lastT t ticks) (runTicks st ticks) := by
  induction ticks with
  | nil => intro st t h _; exact h
  | cons p rest ih =>
    rcases p with ⟨ok, now⟩
    intro st t h hticks
    simp only [ticksAfter, Bool.and_eq_true, decide_eq_true_eq] at hticks
    exact ih (updateState st ok now) now (inv_step st ok t now hticks.1 h) hticks.2

theorem length_failures_updateState (st : TargetState) (ok : Bool) (now : Int) :
    (updateState st ok now).failures.length =
      st.failures.length + (if !st.is_failing && !ok then 1 else 0) := by
  cases ok <;> rcases hfail : st.is_failing with _ | _ <;>
    simp [updateState, hfail, length_setLastEnd]

theorem length_failures_runTicks (ticks : List (Bool × Int)) :
    ∀ st : TargetState, (runTicks st ticks).failures.length =
      st.failures.length + countHF st.is_failing (ticks.map Prod.fst) := by
  induction ticks with
  | nil => intro st; simp [runTicks, countHF]
  | cons p rest ih =>
    rcases p with ⟨ok, now⟩
    intro st
    simp only [runTicks, List.map_cons, countHF]
    rw [ih (updateState st ok now), length_failures_updateState,
      is_failing_updateState]
    omega

theorem take_pred_updateState (st : TargetState) (ok : Bool) (now : Int) :
    (updateState st ok now).failures.take (st.failures.length - 1) =
      st.failures.take (st.failures.length - 1) := by
  cases ok <;> rcases hfail : st.is_failing with _ | _
  · simp only [updateState, hfail]
    rw [List.take_append_of_le_length (by omega)]
  · simp only [updateState, hfail]
    exact take_pred_setLastEnd st.failures now
  · simp [updateState, hfail]
  · simp only [updateState, hfail]
    exact take_pred_setLastEnd st.failures now

/-- A sample target used to instantiate universally quantified theorems. -/
def sampleTarget : Target :=
  { name := "svc", check := Check.http "http://localhost:8080/health" }

/-- C2: for every boolean sequence fed to one target's tracker with strictly
increasing tick timestamps, the final window list is non-overlapping and
ordered by start; the number of windows equals the number of Healthy→Failing
transitions; at most one window (the last) can still change, and the last
window is still being extended (open) iff the status is Failing: when Failing
a further failing tick rewrites the last window's end, and when Healthy no
existing window is ever modified again (a failing tick appends a fresh one). -/
theorem tracker_window_list_invariants (tgt : Target) (ticks : List (Bool × Int))
    (t : Int) (fin : TargetState)
    (h : ticksAfter t ticks = true)
    (hfin : fin = runTicks (initState tgt) ticks) :
    List.Pairwise (fun a b => a.«end» < b.start ∧ a.start < b.start) fin.failures ∧
    fin.failures.length = countHF false (ticks.map Prod.fst) ∧
    (fin.is_failing = true →
      fin.failures ≠ [] ∧
      ∀ now' : Int, (updateState fin false now').failures.getLast? =
        fin.failures.getLast?.map (fun w => { w with «end» := now' })) ∧
    (fin.is_failing = false →
      ∀ now' : Int, updateState fin true now' = fin ∧
        (updateState fin false now').failures =
          fin.failures ++ [{ start := now', «end» := now' }]) ∧
    (∀ (ok : Bool) (now' : Int),
      (updateState fin ok now').failures.take (fin.failures.length - 1) =
        fin.failures.take (fin.failures.length - 1)) := by
  subst hfin
  have hinv := inv_run ticks (initState tgt) t (inv_init t tgt) h
  obtain ⟨hp, hb, hne⟩ := hinv
  refine ⟨?_, ?_, ?_, ?_, ?_⟩
  · exact List.Pairwise.imp_of_mem
      (fun ha hb' hr => ⟨hr, lt_of_le_of_lt (hb _ ha).1 hr⟩) hp
  · have := length_failures_runTicks ticks (initState tgt)
    simpa [initState] using this
  · intro hf
    refine ⟨hne hf, fun now' => ?_⟩
    simp only [updateState, hf]
    exact getLast?_setLastEnd _ now'
  · intro hf now'
    constructor
    · simp [updateState, hf]
    · simp [updateState, hf]
  · intro ok now'
    exact take_pred_updateState _ ok now'

theorem tracker_window_list_invariants_witness :
    ticksAfter 0 [(false, 1), (true, 2)] = true ∧
    (runTicks (initState sampleTarget) [(false, 1), (true, 2)]).failures.length =
      countHF false ([(false, 1), (true, 2)].map Prod.fst) :=
  ⟨by decide,
    (tracker_window_list_invariants sampleTarget [(false, 1), (true, 2)] 0
      (runTicks (initState sampleTarget) [(false, 1), (true, 2)])
      (by decide) rfl).2.1⟩

/-- Mirrors the shutdown pass for one target (main.rs:510-518): a target still
Failing has its last window's end forced to the shutdown timestamp. -/
def closeOpenWindow (st : TargetState) (now : Int) : TargetState :=
  if st.is_failing then { st with failures := setLastEnd st.failures now } else st

/-- The shutdown pass over all targets (main.rs:510-518). -/
def closeOpenWindows (sts : List TargetState) (now : Int) : List TargetState :=
  sts.map (fun st => closeOpenWindow st now)

/-- C3: when cancellation is observed while a target is Failing, the shutdown
pass forces that target's last (open) window's end to the shutdown timestamp,
and afterwards no window of the target has end < start. -/
theorem shutdown_closes_open_window (tgt : Target) (ticks : List (Bool × Int))
    (t now : Int) (fin : TargetState)
    (h : ticksAfter t ticks = true) (hnow : lastT t ticks < now)
    (hfin : fin = runTicks (initState tgt) ticks) :
    (fin.is_failing = true →
      (closeOpenWindow fin now).failures.getLast? =
        fin.failures.getLast?.map (fun w => { w with «end» := now }) ∧
      ∃ w, (closeOpenWindow fin now).failures.getLast? = some w ∧ w.«end» = now) ∧
    (∀ w ∈ (closeOpenWindow fin now).failures, w.start ≤ w.«end») := by
  subst hfin
  have hinv := inv_run ticks (initState tgt) t (inv_init t tgt) h
  obtain ⟨hp, hb, hne⟩ := hinv
  constructor
  · intro hf
    rcases List.eq_nil_or_concat (runTicks (initState tgt) ticks).failures with
      hnil | ⟨l, b, hdec⟩
    · exact absurd hnil (hne hf)
    rw [List.concat_eq_append] at hdec
    constructor
    · simp only [closeOpenWindow, hf, if_true]
      exact getLast?_setLastEnd _ now
    · refine ⟨{ b with «end» := now }, ?_, rfl⟩
      simp [closeOpenWindow, hf, hdec, setLastEnd_concat]
  · intro w hw
    rcases hf : (runTicks (initState tgt) ticks).is_failing with _ | _
    · simp only [closeOpenWindow, hf, if_false, Bool.false_eq_true] at hw
      exact (hb w hw).1
    · rcases List.eq_nil_or_concat (runTicks (initState tgt) ticks).failures with
        hnil | ⟨l, b, hdec⟩
      · exact absurd hnil (hne hf)
      rw [List.concat_eq_append] at hdec
      simp only [closeOpenWindow, hf, if_true, hdec, setLastEnd_concat] at hw
      rcases List.mem_append.mp hw with hw | hw
      · exact (hb w (by simp [hdec, List.mem_append.mpr (Or.inl hw)])).1
      · simp at hw
        subst hw
        have := hb b (by simp [hdec])
        have hble : b.«end» ≤ lastT t ticks := this.2
        exact le_of_lt (lt_of_le_of_lt (le_trans this.1 hble) hnow)

theorem shutdown_closes_open_window_witness :
    ticksAfter 0 [(false, 1)] = true ∧ lastT 0 [(false, 1)] < 5 ∧
    (∀ w ∈ (closeOpenWindow (runTicks (initState sampleTarget) [(false, 1)]) 5).failures,
      w.start ≤ w.«end») :=
  ⟨by decide, by decide,
    (shutdown_closes_open_window sampleTarget [(false, 1)] 0 5
      (runTicks (initState sampleTarget) [(false, 1)]) (by decide) (by decide) rfl).2⟩

/-- The sort key used by print_report (main.rs:285):
`s.failures.first().map(|f| f.start)`. -/
def sortKey (s : TargetState) : Option Int :=
  s.failures.head?.map (fun w => w.start)

/-- Comparison of optional keys, `None` sorting first, mirroring the `Ord`
instance on `Option<DateTime>` used by `sort_by_key`. -/
def okeyLe : Option Int → Option Int → Bool
  | none, _ => true
  | some _, none => false
  | some a, some b => decide (a ≤ b)

/-- Stable insertion of a state into an already sorted list: the new element
goes before the first element with a strictly larger key, hence after all
earlier elements with an equal key.  Together with sortByFirstStart this
models the stable `sort_by_key` of main.rs:285. -/
def insertByKey (x : TargetState) : List TargetState → List TargetState
  | [] => [x]
  | y :: ys =>
    if okeyLe (sortKey x) (sortKey y) then x :: y :: ys else y :: insertByKey x ys

/-- Stable sort by first-window start (main.rs:285). -/
def sortByFirstStart : List TargetState → List TargetState
  | [] => []
  | x :: xs => insertByKey x (sortByFirstStart xs)

/-- Minimum of a list, mirroring `Iterator::min` (main.rs:287-291). -/
def minStart : List Int → Option Int
  | [] => none
  | x :: xs =>
    match minStart xs with
    | none => some x
    | some m => some (min x m)

/-- One target's block of the final report (main.rs:306-335). -/
structure TargetReport where
  name : String
  total_downtime : Int
  window_count : Nat
  windows : List (Int × Int)
  deriving DecidableEq

/-- The structured content of the final report (main.rs:263-343): either the
all-healthy summary, or the earliest first-failure time, the per-target blocks
in sorted order, and the grand total. -/
inductive Report where
  | noDowntime
  | downtime (earliest : Int) (details : List TargetReport) (total : Int)
  deriving DecidableEq

/-- The per-target block (main.rs:308-334): total downtime as the sum of
window durations, the window count, and each window's (duration, start) pair
in stored (chronological) order. -/
def targetReportOf (s : TargetState) : TargetReport :=
  { name := s.target.name
    total_downtime := (s.failures.map duration_secs).sum
    window_count := s.failures.length
    windows := s.failures.map (fun w => (duration_secs w, w.start)) }

/-- Mirrors print_report (main.rs:263-343) as a pure function to the report's
structured content: filter to targets with failures, emit the no-downtime
summary when none remain, otherwise sort stably by first-window start, take
the minimum first-window start as the overall start, and accumulate the grand
total over the per-target totals. -/
def print_report (states : List TargetState) : Report :=
  let failed := states.filter (fun s => !s.failures.isEmpty)
  if failed.isEmpty then Report.noDowntime
  else
    let sorted := sortByFirstStart failed
    let earliest :=
      (minStart (sorted.filterMap (fun s => s.failures.head?.map (fun w => w.start)))).getD 0
    let details := sorted.map targetReportOf
    Report.downtime earliest details
      (details.foldl (fun acc d => acc + d.total_downtime) 0)

theorem okeyLe_total (a b : Option Int) : okeyLe a b = true ∨ okeyLe b a = true := by
  rcases a with _ | a <;> rcases b with _ | b <;> simp [okeyLe] <;> omega

theorem okeyLe_trans {a b c : Option Int} (h₁ : okeyLe a b = true)
    (h₂ : okeyLe b c = true) : okeyLe a c = true := by
  rcases a with _ | a <;> rcases b with _ | b <;> rcases c with _ | c <;>
    simp [okeyLe] at * <;> omega

theorem okeyLe_refl (a : Option Int) : okeyLe a a = true := by
  rcases a with _ | a <;> simp [okeyLe]

theorem perm_insertByKey (x : TargetState) (l : List TargetState) :
    (insertByKey x l).Perm (x :: l) := by
  induction l with
  | nil => exact List.Perm.refl _
  | cons y ys ih =>
    by_cases h : okeyLe (sortKey x) (sortKey y) = true
    · simp [insertByKey, h]
    · simp only [insertByKey, h, if_false, Bool.not_eq_true]
      exact (ih.cons y).trans (List.Perm.swap x y ys)

theorem perm_sortByFirstStart (l : List TargetState) :
    (sortByFirstStart l).Perm l := by
  induction l with
  | nil => exact List.Perm.refl _
  | cons x xs ih =>
    exact (perm_insertByKey x (sortByFirstStart xs)).trans (ih.cons x)

theorem pairwise_insertByKey (x : TargetState) (l : List TargetState)
    (h : List.Pairwise (fun a b => okeyLe (sortKey a) (sortKey b) = true) l) :
    List.Pairwise (fun a b => okeyLe (sortKey a) (sortKey b) = true)
      (insertByKey x l) := by
  induction l with
  | nil => simp [insertByKey]
  | cons y ys ih =>
    rcases List.pairwise_cons.mp h with ⟨hy, hys⟩
    by_cases hc : okeyLe (sortKey x) (sortKey y) = true
    · simp only [insertByKey, hc, if_true]
      refine List.pairwise_cons.mpr ⟨?_, h⟩
      intro z hz
      rcases List.mem_cons.mp hz with hz | hz
      · exact hz ▸ hc
      · exact okeyLe_trans hc (hy z hz)
    · simp only [insertByKey, hc, if_false]
      refine List.pairwise_cons.mpr ⟨?_, ih hys⟩
      intro z hz
      have hz' : z ∈ x :: ys := (perm_insertByKey x ys).mem_iff.mp hz
      rcases List.mem_cons.mp hz' with hz' | hz'
      · rw [hz']
        rcases okeyLe_total (sortKey x) (sortKey y) with h' | h'
        · exact absurd h' hc
        · exact h'
      · exact hy z hz'

theorem pairwise_sortByFirstStart (l : List TargetState) :
    List.Pairwise (fun a b => okeyLe (sortKey a) (sortKey b) = true)
      (sortByFirstStart l) := by
  induction l with
  | nil => simp [sortByFirstStart]
  | cons x xs ih => exact pairwise_insertByKey x _ ih

theorem filter_insertByKey (x : TargetState) (l : List TargetState) (k : Option Int) :
    (insertByKey x l).filter (fun s => decide (sortKey s = k)) =
      if sortKey x = k then x :: l.filter (fun s => decide (sortKey s = k))
      else l.filter (fun s => decide (sortKey s = k)) := by
  induction l with
  | nil => by_cases hx : sortKey x = k <;> simp [insertByKey, hx]
  | cons y ys ih =>
    by_cases hc : okeyLe (sortKey x) (sortKey y) = true
    · have h1 : insertByKey x (y :: ys) = x :: y :: ys := by
        simp [insertByKey, hc]
      rw [h1]
      by_cases hx : sortKey x = k <;> by_cases hy : sortKey y = k <;>
        simp [List.filter_cons, hx, hy]
    · -- x is inserted after y, so the key of y is strictly below that of x
      have h1 : insertByKey x (y :: ys) = y :: insertByKey x ys := by
        simp [insertByKey, hc]
      have hne : sortKey y ≠ sortKey x := by
        intro hEq
        exact hc (hEq ▸ okeyLe_refl (sortKey y))
      rw [h1]
      by_cases hx : sortKey x = k
      · have hy : sortKey y ≠ k := fun h => hne (h.trans hx.symm)
        simp [List.filter_cons, hx, hy, ih]
      · by_cases hy : sortKey y = k <;> simp [List.filter_cons, hx, hy, ih]

theorem filter_sortByFirstStart (l : List TargetState) (k : Option Int) :
    (sortByFirstStart l).filter (fun s => decide (sortKey s = k)) =
      l.filter (fun s => decide (sortKey s = k)) := by
  induction l with
  | nil => rfl
  | cons x xs ih =>
    simp only [sortByFirstStart, filter_insertByKey]
    by_cases hx : sortKey x = k <;> simp [hx, ih]

theorem minStart_eq_none (l : List Int) : minStart l = none ↔ l = [] := by
  cases l with
  | nil => simp [minStart]
  | cons x xs => cases hm : minStart xs <;> simp [minStart, hm]

theorem minStart_spec (l : List Int) :
    ∀ m : Int, minStart l = some m → m ∈ l ∧ ∀ x ∈ l, m ≤ x := by
  induction l with
  | nil => intro m h; cases h
  | cons x xs ih =>
    intro m h
    cases hm : minStart xs with
    | none =>
      rw [minStart, hm] at h
      have hxs : xs = [] := (minStart_eq_none xs).mp hm
      cases h
      subst hxs
      exact ⟨List.mem_singleton.mpr rfl, by simp⟩
    | some m' =>
      rw [minStart, hm] at h
      cases h
      rcases ih m' hm with ⟨hmem, hle⟩
      constructor
      · rcases le_total x m' with hx | hx
        · simp [min_eq_left hx]
        · right; rw [min_eq_right hx]; exact hmem
      · intro y hy
        rcases List.mem_cons.mp hy with hy | hy
        · subst hy; exact min_le_left _ _
        · exact le_trans (min_le_right _ _) (hle y hy)

theorem print_report_nil (states : List TargetState)
    (h : states.filter (fun s => !s.failures.isEmpty) = []) :
    print_report states = Report.noDowntime := by
  simp only [print_report, h]
  rfl

theorem print_report_downtime (states : List TargetState)
    (h : states.filter (fun s => !s.failures.isEmpty) ≠ []) :
    print_report states = Report.downtime
      ((minStart ((sortByFirstStart (states.filter (fun s => !s.failures.isEmpty))).filterMap
          (fun s => s.failures.head?.map (fun w => w.start)))).getD 0)
      ((sortByFirstStart (states.filter (fun s => !s.failures.isEmpty))).map targetReportOf)
      (((sortByFirstStart (states.filter (fun s => !s.failures.isEmpty))).map
          targetReportOf).foldl (fun acc d => acc + d.total_downtime) 0) := by
  simp only [print_report]
  rw [if_neg]
  intro hcon
  exact h (by simpa using hcon)

theorem foldl_add_total_downtime (l : List TargetReport) :
    ∀ a : Int, l.foldl (fun acc d => acc + d.total_downtime) a =
      a + (l.map (fun d => d.total_downtime)).sum := by
  induction l with
  | nil => intro a; simp
  | cons d ds ih =>
    intro a
    simp only [List.foldl_cons, List.map_cons, List.sum_cons, ih]
    ring

/-- Every member of the filtered list has at least one failure window. -/
theorem mem_failed_nonempty (states : List TargetState) (s : TargetState)
    (hs : s ∈ states.filter (fun s => !s.failures.isEmpty)) :
    s ∈ states ∧ s.failures ≠ [] := by
  rcases List.mem_filter.mp hs with ⟨h₁, h₂⟩
  refine ⟨h₁, ?_⟩
  intro hnil
  simp [hnil] at h₂

/-- C4: given the final state list, the reporter emits the no-downtime summary
exactly when no target has a window; otherwise it keeps only targets with at
least one window, orders them ascending by the start of their first window
with the original order as a stable tie-break, and reports as overall start
the minimum first-window start over those targets. -/
theorem reporter_output_structure (states : List TargetState)
    (failed sorted : List TargetState)
    (hfailed : failed = states.filter (fun s => !s.failures.isEmpty))
    (hsorted : sorted = sortByFirstStart failed) :
    ((∀ s ∈ states, s.failures = []) → print_report states = Report.noDowntime) ∧
    (failed ≠ [] →
      sorted.Perm failed ∧
      List.Pairwise (fun a b => ∀ wa wb, a.failures.head? = some wa →
        b.failures.head? = some wb → wa.start ≤ wb.start) sorted ∧
      (∀ k : Option Int, sorted.filter (fun s => decide (sortKey s = k)) =
        failed.filter (fun s => decide (sortKey s = k))) ∧
      ∃ e total, print_report states = Report.downtime e (sorted.map targetReportOf) total ∧
        (∀ s ∈ failed, ∀ w, s.failures.head? = some w → e ≤ w.start) ∧
        (∃ s ∈ failed, ∃ w, s.failures.head? = some w ∧ w.start = e)) := by
  subst hfailed
  subst hsorted
  constructor
  · intro hall
    apply print_report_nil
    apply List.filter_eq_nil_iff.mpr
    intro s hs
    simp [hall s hs]
  · intro hne
    refine ⟨perm_sortByFirstStart _, ?_, fun k => filter_sortByFirstStart _ k, ?_⟩
    · refine List.Pairwise.imp ?_ (pairwise_sortByFirstStart _)
      intro a b hab wa wb hwa hwb
      have hka : sortKey a = some wa.start := by simp [sortKey, hwa]
      have hkb : sortKey b = some wb.start := by simp [sortKey, hwb]
      rw [hka, hkb] at hab
      simpa [okeyLe] using hab
    · -- the reported overall start is the minimum first-window start
      have hsne : sortByFirstStart (states.filter (fun s => !s.failures.isEmpty)) ≠ [] := by
        intro hnil
        have hp := perm_sortByFirstStart (states.filter (fun s => !s.failures.isEmpty))
        rw [hnil] at hp
        exact hne hp.symm.eq_nil
      have hhead : ∀ s ∈ sortByFirstStart (states.filter (fun s => !s.failures.isEmpty)),
          ∃ w, s.failures.head? = some w := by
        intro s hs
        have hs' := (perm_sortByFirstStart _).mem_iff.mp hs
        rcases mem_failed_nonempty states s hs' with ⟨_, hfne⟩
        cases hfs : s.failures with
        | nil => exact absurd hfs hfne
        | cons w ws => exact ⟨w, rfl⟩
      have hfmne : (sortByFirstStart (states.filter (fun s => !s.failures.isEmpty))).filterMap
          (fun s => s.failures.head?.map (fun w => w.start)) ≠ [] := by
        rcases hs : sortByFirstStart (states.filter (fun s => !s.failures.isEmpty)) with
          _ | ⟨s₀, rest⟩
        · exact absurd hs hsne
        rcases hhead s₀ (hs ▸ List.mem_cons_self s₀ rest) with ⟨w₀, hw₀⟩
        simp [List.filterMap_cons, hw₀]
      obtain ⟨e, he⟩ : ∃ e, minStart ((sortByFirstStart
          (states.filter (fun s => !s.failures.isEmpty))).filterMap
          (fun s => s.failures.head?.map (fun w => w.start))) = some e := by
        cases hm : minStart ((sortByFirstStart
            (states.filter (fun s => !s.failures.isEmpty))).filterMap
            (fun s => s.failures.head?.map (fun w => w.start))) with
        | none => exact absurd ((minStart_eq_none _).mp hm) hfmne
        | some e => exact ⟨e, rfl⟩
      rcases minStart_spec _ e he with ⟨hemem, helb⟩
      refine ⟨e, ((sortByFirstStart (states.filter (fun s => !s.failures.isEmpty))).map
          targetReportOf).foldl (fun acc d => acc + d.total_downtime) 0, ?_, ?_, ?_⟩
      · rw [print_report_downtime states hne, he]
        rfl
      · intro s hs w hw
        apply helb
        apply List.mem_filterMap.mpr
        exact ⟨s, (perm_sortByFirstStart _).symm.mem_iff.mp hs, by simp [hw]⟩
      · rcases List.mem_filterMap.mp hemem with ⟨s, hs, hfs⟩
        rcases Option.map_eq_some'.mp hfs with ⟨w, hw, hws⟩
        exact ⟨s, (perm_sortByFirstStart _).mem_iff.mp hs, w, hw, hws⟩

/-- Sample final states used to instantiate reporter theorems. -/
def stA : TargetState := ⟨⟨"a", Check.http "u"⟩, false, [⟨5, 6⟩]⟩

def stB : TargetState := ⟨⟨"b", Check.tcp "h" 1⟩, true, [⟨1, 3⟩]⟩

theorem reporter_output_structure_witness :
    [stA, stB].filter (fun s => !s.failures.isEmpty) ≠ [] ∧
    (sortByFirstStart ([stA, stB].filter (fun s => !s.failures.isEmpty))).Perm
      ([stA, stB].filter (fun s => !s.failures.isEmpty)) :=
  ⟨by decide, ((reporter_output_structure [stA, stB]
      ([stA, stB].filter (fun s => !s.failures.isEmpty))
      (sortByFirstStart ([stA, stB].filter (fun s => !s.failures.isEmpty)))
      rfl rfl).2 (by decide)).1⟩

/-- C5: in a downtime report, every per-target block's total downtime is the
sum over its windows of max(1, end - start), with the window count and the
(duration, start) pairs listed in stored chronological order, and the grand
total is the sum of the per-target totals. -/
theorem reporter_downtime_totals (states : List TargetState) (e : Int)
    (details : List TargetReport) (total : Int)
    (h : print_report states = Report.downtime e details total) :
    total = (details.map (fun d => d.total_downtime)).sum ∧
    ∀ d ∈ details, ∃ s, s ∈ states ∧ s.failures ≠ [] ∧ d = targetReportOf s ∧
      d.total_downtime = (s.failures.map (fun w => max (w.«end» - w.start) 1)).sum ∧
      d.window_count = s.failures.length ∧
      d.windows = s.failures.map (fun w => (max (w.«end» - w.start) 1, w.start)) := by
  by_cases hf : states.filter (fun s => !s.failures.isEmpty) = []
  · rw [print_report_nil states hf] at h
    cases h
  · rw [print_report_downtime states hf] at h
    injection h with he hd ht
    constructor
    · rw [← ht, ← hd, foldl_add_total_downtime]
      simp
    · intro d hd'
      rw [← hd] at hd'
      rcases List.mem_map.mp hd' with ⟨s, hs, hds⟩
      have hs' := (perm_sortByFirstStart _).mem_iff.mp hs
      rcases mem_failed_nonempty states s hs' with ⟨hsStates, hsne⟩
      refine ⟨s, hsStates, hsne, hds.symm, ?_, ?_, ?_⟩
      · rw [← hds]; rfl
      · rw [← hds]; rfl
      · rw [← hds]; rfl

theorem reporter_downtime_totals_witness :
    print_report [stB] = Report.downtime 1 [⟨"b", 2, 1, [(2, 1)]⟩] 2 ∧
    (2 : Int) = ([(⟨"b", 2, 1, [(2, 1)]⟩ : TargetReport)].map
      (fun d => d.total_downtime)).sum :=
  ⟨by decide,
    (reporter_downtime_totals [stB] 1 [⟨"b", 2, 1, [(2, 1)]⟩] 2 (by decide)).1⟩

/-- Rust's `str::contains(char)` (main.rs:234), modelled over the string's
character list. -/
def strContainsChar (s : String) (c : Char) : Bool :=
  s.data.contains c

/-- Mirrors the TCP address construction in check_target (main.rs:234-239):
bracket-wrap the host when it contains a colon, then append ":port". -/
def tcp_addr_str (host : String) (port : Nat) : String :=
  if strContainsChar host ':' then "[" ++ host ++ "]:" ++ toString port
  else host ++ ":" ++ toString port

/-- C6: the TCP connection address is "[host]:port" whenever the host contains
a colon and "host:port" otherwise; host "::1" with port 8080 yields
"[::1]:8080". -/
theorem tcp_address_construction (host : String) (port : Nat) :
    (strContainsChar host ':' = true →
      tcp_addr_str host port = "[" ++ host ++ "]:" ++ toString port) ∧
    (strContainsChar host ':' = false →
      tcp_addr_str host port = host ++ ":" ++ toString port) ∧
    tcp_addr_str "::1" 8080 = "[::1]:8080" := by
  refine ⟨fun h => by simp [tcp_addr_str, h], fun h => by simp [tcp_addr_str, h], ?_⟩
  decide

theorem tcp_address_construction_witness :
    (strContainsChar "::1" ':' = true) ∧
    tcp_addr_str "::1" 8080 = "[" ++ "::1" ++ "]:" ++ toString 8080 :=
  ⟨by decide, (tcp_address_construction "::1" 8080).1 (by decide)⟩

/-- The possible outcomes of issuing the HTTP GET in check_target
(main.rs:215-231): the client could not be built, the request failed in
transport, or a response with some numeric status code arrived. -/
inductive HttpOutcome where
  | clientBuildError
  | transportError
  | response (status : Nat)
  deriving DecidableEq

/-- Mirrors the HTTP arm of check_target (main.rs:215-231): a client build
failure or any transport error yields false; a response is healthy iff
`(200..400).contains(&status)`. -/
def http_check : HttpOutcome → Bool
  | .clientBuildError => false
  | .transportError => false
  | .response status => decide (200 ≤ status) && decide (status < 400)

/-- C7: an HTTP check with a response is healthy iff the status lies in
[200, 400): 200 and 399 are healthy, 199 and 400 are not; any transport or
client-construction failure yields false rather than raising. -/
theorem http_status_classification :
    (∀ s : Nat, http_check (HttpOutcome.response s) = true ↔ (200 ≤ s ∧ s < 400)) ∧
    http_check (HttpOutcome.response 200) = true ∧
    http_check (HttpOutcome.response 399) = true ∧
    http_check (HttpOutcome.response 400) = false ∧
    http_check (HttpOutcome.response 199) = false ∧
    http_check HttpOutcome.transportError = false ∧
    http_check HttpOutcome.clientBuildError = false := by
  refine ⟨fun s => ?_, by decide, by decide, by decide, by decide, rfl, rfl⟩
  simp [http_check]

/-- Mirrors the join loop of check_all (main.rs:532-536) starting at unit
index `i`: each handle's result, `none` when the unit cannot be joined, is
collapsed with `unwrap_or(false)`. -/
def check_all_from (join : Nat → Option Bool) : Nat → List Target → List Bool
  | _, [] => []
  | i, _ :: ts => (join i).getD false :: check_all_from join (i + 1) ts

/-- Mirrors check_all (main.rs:523-537): one spawned unit per target in list
order; `join i` is the join result of the unit spawned for the i-th target. -/
def check_all (targets : List Target) (join : Nat → Option Bool) : List Bool :=
  check_all_from join 0 targets

theorem check_all_from_getElem? (join : Nat → Option Bool) (ts : List Target) :
    ∀ i₀ i : Nat, (check_all_from join i₀ ts)[i]? =
      if i < ts.length then some ((join (i₀ + i)).getD false) else none := by
  induction ts with
  | nil => intro i₀ i; simp [check_all_from]
  | cons t ts ih =>
    intro i₀ i
    cases i with
    | zero => simp [check_all_from]
    | succ j =>
      simp only [check_all_from, List.getElem?_cons_succ, ih (i₀ + 1) j,
        List.length_cons]
      have harith : i₀ + 1 + j = i₀ + (j + 1) := by omega
      by_cases hj : j < ts.length
      · simp [hj, harith]
      · simp [hj]

theorem length_check_all_from (join : Nat → Option Bool) (ts : List Target) :
    ∀ i₀ : Nat, (check_all_from join i₀ ts).length = ts.length := by
  induction ts with
  | nil => intro i₀; rfl
  | cons t ts ih => intro i₀; simp [check_all_from, ih]

/-- C8: the batch poll returns exactly one boolean per target, index-aligned
with the target list, and a unit that cannot be joined (join gives none)
contributes false to its slot instead of aborting or shortening the batch. -/
theorem check_all_index_aligned (targets : List Target) (join : Nat → Option Bool) :
    (check_all targets join).length = targets.length ∧
    (∀ i : Nat, (check_all targets join)[i]? =
      if i < targets.length then some ((join i).getD false) else none) ∧
    (∀ i : Nat, i < targets.length → join i = none →
      (check_all targets join)[i]? = some false) := by
  refine ⟨length_check_all_from join targets 0, fun i => ?_, fun i hi hnone => ?_⟩
  · simpa using check_all_from_getElem? join targets 0 i
  · have := check_all_from_getElem? join targets 0 i
    simp [check_all, this, hi, hnone]

theorem check_all_index_aligned_witness :
    (1 < ([sampleTarget, stA.target, stB.target] : List Target).length) ∧
    ((fun i => if i = 1 then none else some true) 1 = (none : Option Bool)) ∧
    (check_all [sampleTarget, stA.target, stB.target]
      (fun i => if i = 1 then none else some true))[1]? = some false :=
  ⟨by decide, by decide,
    (check_all_index_aligned [sampleTarget, stA.target, stB.target]
      (fun i => if i = 1 then none else some true)).2.2 1 (by decide) (by decide)⟩

/-- The initial state vector (main.rs:454-461). -/
def initStates (targets : List Target) : List TargetState :=
  targets.map initState

/-- One tick's update of all target states (main.rs:479-501):
`states.iter_mut().zip(results.iter())`. -/
def updateStates (sts : List TargetState) (results : List Bool) (now : Int) :
    List TargetState :=
  (sts.zip results).map (fun p => updateState p.1 p.2 now)

/-- The monitoring loop over a schedule of ticks, each carrying the poll
results and the tick timestamp (main.rs:464-508). -/
def runLoop (sts : List TargetState) : List (List Bool × Int) → List TargetState
  | [] => sts
  | (results, now) :: rest => runLoop (updateStates sts results now) rest

/-- The names of targets that failed the initial health check, in target
order (main.rs:405-427). -/
def initialFailures (targets : List Target) (initResults : List Bool) : List String :=
  (targets.zip initResults).filterMap (fun p => if p.2 then none else some p.1.name)

/-- The observable outcome of the core: either an abort after the initial
health check listing the failing targets (process exit 1, main.rs:429-436),
or a completed run ending in a report. -/
inductive RunOutcome where
  | initFailed (failed : List String)
  | completed (report : Report)
  deriving DecidableEq

/-- The process exit status associated with an outcome (main.rs:435 vs normal
return from main). -/
def exitCode : RunOutcome → Nat
  | .initFailed _ => 1
  | .completed _ => 0

/-- Mirrors main's core control flow after target validation (main.rs:399-521):
if any target fails the initial poll the run aborts with the failing names;
otherwise the monitoring loop consumes the tick schedule, the shutdown pass
closes any open windows at `stopT`, and print_report runs on the result. -/
def runMainCore (targets : List Target) (initResults : List Bool)
    (ticks : List (List Bool × Int)) (stopT : Int) : RunOutcome :=
  if (initialFailures targets initResults).isEmpty then
    RunOutcome.completed
      (print_report (closeOpenWindows (runLoop (initStates targets) ticks) stopT))
  else RunOutcome.initFailed (initialFailures targets initResults)

/-- C9: if any target fails the initial full-health poll, the run aborts: the
outcome is independent of the tick schedule and shutdown time (the monitoring
loop is never entered and no windows are created), the failing targets are the
ones reported, and the exit status is non-zero. -/
theorem initial_check_gate (targets : List Target) (initResults : List Bool)
    (h : (targets.zip initResults).any (fun p => !p.2) = true) :
    ∀ (ticks ticks' : List (List Bool × Int)) (stopT stopT' : Int),
      runMainCore targets initResults ticks stopT =
        RunOutcome.initFailed (initialFailures targets initResults) ∧
      initialFailures targets initResults ≠ [] ∧
      exitCode (runMainCore targets initResults ticks stopT) = 1 ∧
      runMainCore targets initResults ticks stopT =
        runMainCore targets initResults ticks' stopT' ∧
      (∀ p ∈ targets.zip initResults, p.2 = false →
        p.1.name ∈ initialFailures targets initResults) ∧
      (∀ n ∈ initialFailures targets initResults,
        ∃ p ∈ targets.zip initResults, p.2 = false ∧ n = p.1.name) := by
  have hne : initialFailures targets initResults ≠ [] := by
    rcases List.any_eq_true.mp h with ⟨p, hp, hfp⟩
    intro hnil
    have : p.1.name ∈ initialFailures targets initResults := by
      apply List.mem_filterMap.mpr
      refine ⟨p, hp, ?_⟩
      rcases hp2 : p.2 with _ | _
      · rfl
      · rw [hp2] at hfp; cases hfp
    rw [hnil] at this
    cases this
  have hcond : (initialFailures targets initResults).isEmpty = false := by
    rcases hl : initialFailures targets initResults with _ | ⟨n, rest⟩
    · exact absurd hl hne
    · rfl
  have hrun : ∀ (ticks : List (List Bool × Int)) (stopT : Int),
      runMainCore targets initResults ticks stopT =
        RunOutcome.initFailed (initialFailures targets initResults) := by
    intro ticks stopT
    simp [runMainCore, hcond]
  intro ticks ticks' stopT stopT'
  refine ⟨hrun ticks stopT, hne, by rw [hrun ticks stopT]; rfl,
    by rw [hrun ticks stopT, hrun ticks' stopT'], ?_, ?_⟩
  · intro p hp hp2
    apply List.mem_filterMap.mpr
    exact ⟨p, hp, by simp [hp2]⟩
  · intro n hn
    rcases List.mem_filterMap.mp hn with ⟨p, hp, hfp⟩
    rcases hp2 : p.2 with _ | _
    · rw [hp2] at hfp
      simp at hfp
      exact ⟨p, hp, hp2, hfp.symm⟩
    · rw [hp2] at hfp
      cases hfp

theorem initial_check_gate_witness :
    ([sampleTarget].zip [false]).any (fun p => !p.2) = true ∧
    runMainCore [sampleTarget] [false] [] 0 =
      RunOutcome.initFailed (initialFailures [sampleTarget] [false]) ∧
    exitCode (runMainCore [sampleTarget] [false] [] 0) = 1 :=
  ⟨by decide,
    (initial_check_gate [sampleTarget] [false] (by decide) [] [] 0 0).1,
    (initial_check_gate [sampleTarget] [false] (by decide) [] [] 0 0).2.2.1⟩

/-- C10: if cancellation is observed before any tick executes (an empty tick
schedule) and the initial check passed, the run completes normally: every
target's window list is still empty after the shutdown pass, the reporter
emits the no-downtime summary, and the exit status is zero. -/
theorem immediate_stop_reports_no_downtime (targets : List Target)
    (initResults : List Bool)
    (h : (targets.zip initResults).all (fun p => p.2) = true) :
    ∀ stopT : Int,
      runLoop (initStates targets) [] = initStates targets ∧
      (∀ st ∈ closeOpenWindows (initStates targets) stopT, st.failures = []) ∧
      runMainCore targets initResults [] stopT =
        RunOutcome.completed Report.noDowntime ∧
      exitCode (runMainCore targets initResults [] stopT) = 0 := by
  have hinit : initialFailures targets initResults = [] := by
    apply List.filterMap_eq_nil_iff.mpr
    intro p hp
    simp [List.all_eq_true.mp h p hp]
  have hempty : ∀ stopT : Int,
      ∀ st ∈ closeOpenWindows (initStates targets) stopT, st.failures = [] := by
    intro stopT st hst
    rcases List.mem_map.mp hst with ⟨st₀, hst₀, hclose⟩
    rcases List.mem_map.mp hst₀ with ⟨t, _, hinitSt⟩
    rw [← hclose, ← hinitSt]
    rfl
  intro stopT
  refine ⟨rfl, hempty stopT, ?_, ?_⟩
  · have hrep : print_report (closeOpenWindows (initStates targets) stopT) =
        Report.noDowntime := by
      apply print_report_nil
      apply List.filter_eq_nil_iff.mpr
      intro st hst
      simp [hempty stopT st hst]
    simp [runMainCore, hinit, runLoop, hrep]
  · have hrep : print_report (closeOpenWindows (initStates targets) stopT) =
        Report.noDowntime := by
      apply print_report_nil
      apply List.filter_eq_nil_iff.mpr
      intro st hst
      simp [hempty stopT st hst]
    simp [runMainCore, hinit, runLoop, hrep, exitCode]

theorem immediate_stop_reports_no_downtime_witness :
    ([sampleTarget].zip [true]).all (fun p => p.2) = true ∧
    runMainCore [sampleTarget] [true] [] 7 =
      RunOutcome.completed Report.noDowntime :=
  ⟨by decide,
    (immediate_stop_reports_no_downtime [sampleTarget] [true] (by decide) 7).2.2.1⟩

end Downtime
